import Mathlib

/-!
Shallow embedding of the UVM assembler (`src/uvm_assembler.py`, together with
the byte-level decoder used by `src/test_assembler.py`), and theorems settling
the specification's claims about it.

Strings are modelled as `List Char`; machine bytes as `Nat` values below 256
produced by explicit masking, exactly as the Python source computes them.
-/

namespace UVM

/-- The entity built by `Instruction.__init__`: an opcode and an operand.
Both fields are natural numbers; the parser only constructs instructions
whose operand already passed the `0 <= operand` check, so `Nat` suffices. -/
structure Instruction where
  opcode : Nat
  operand : Nat
deriving DecidableEq

/-- `Instruction.OPCODE_LOAD` (0x66). -/
def OPCODE_LOAD : Nat := 102

/-- `Instruction.OPCODE_READ` (0x9B). -/
def OPCODE_READ : Nat := 155

/-- `Instruction.OPCODE_WRITE` (0x31). -/
def OPCODE_WRITE : Nat := 49

/-- `Instruction.OPCODE_XOR` (0x88). -/
def OPCODE_XOR : Nat := 136

/-- `Instruction.encode`: byte 0 is `opcode & 0xFF`, bytes 1-3 are
`(operand >> 0) & 0xFF`, `(operand >> 8) & 0xFF`, `(operand >> 16) & 0xFF`. -/
def Instruction.encode (i : Instruction) : List Nat :=
  [i.opcode &&& 0xFF,
   (i.operand >>> 0) &&& 0xFF,
   (i.operand >>> 8) &&& 0xFF,
   (i.operand >>> 16) &&& 0xFF]

/-- The decoder used by `test_assembler.py` (result-check loop in `main`):
`opcode = chunk[0]`, `operand = chunk[1] | (chunk[2] << 8) | (chunk[3] << 16)`. -/
def decode (chunk : List Nat) : Instruction :=
  { opcode := chunk.getD 0 0,
    operand := chunk.getD 1 0 ||| (chunk.getD 2 0 <<< 8) ||| (chunk.getD 3 0 <<< 16) }

/-- CPython's whitespace character set (`Py_UNICODE_ISSPACE`): the separator
set of no-argument `str.split()`, also what `str.strip()` removes. It contains
the ASCII whitespace and control separators 0x09-0x0D, 0x1C-0x1F, 0x20, plus
the Unicode space characters 0x85, 0xA0, 0x1680, 0x2000-0x200A, 0x2028,
0x2029, 0x202F, 0x205F and 0x3000. -/
def pySpace (c : Char) : Bool :=
  let n := c.toNat
  decide ((0x09 ≤ n ∧ n ≤ 0x0D) ∨ (0x1C ≤ n ∧ n ≤ 0x1F) ∨ n = 0x20 ∨ n = 0x85 ∨
    n = 0xA0 ∨ n = 0x1680 ∨ (0x2000 ≤ n ∧ n ≤ 0x200A) ∨ n = 0x2028 ∨ n = 0x2029 ∨
    n = 0x202F ∨ n = 0x205F ∨ n = 0x3000)

/-- Modelled from the spec: "ASCII whitespace" as the spec's tokenization
sentence uses it — tab, line feed, vertical tab, form feed, carriage return
and space. Used only to compare the spec's description of tokenization with
the code's actual separator set. -/
def asciiSpace (c : Char) : Bool :=
  let n := c.toNat
  decide ((0x09 ≤ n ∧ n ≤ 0x0D) ∨ n = 0x20)

/-- Maximal-run splitter underlying `str.split()`: scan the characters,
accumulating a (reversed) current token, emitting it whenever a separator is
reached and at the end of the input. -/
def wordsByAux (p : Char → Bool) : List Char → List Char → List (List Char)
  | [], acc => if acc.isEmpty then [] else [acc.reverse]
  | c :: cs, acc =>
    if p c then
      if acc.isEmpty then wordsByAux p cs []
      else acc.reverse :: wordsByAux p cs []
    else wordsByAux p cs (c :: acc)

/-- Tokens of `l`: the maximal runs of characters on which `p` is false. -/
def wordsBy (p : Char → Bool) (l : List Char) : List (List Char) :=
  wordsByAux p l []

/-- Python `line.split()` with no argument: split on runs of `pySpace`. -/
def splitPy (l : List Char) : List (List Char) := wordsBy pySpace l

/-- Modelled from the spec: tokenization that recognizes only ASCII
whitespace as a separator. -/
def splitAscii (l : List Char) : List (List Char) := wordsBy asciiSpace l

/-- Python `str.strip()`: drop `pySpace` characters from both ends. -/
def pyStrip (l : List Char) : List Char :=
  ((l.dropWhile pySpace).reverse.dropWhile pySpace).reverse

/-- Python `str.upper()` on the characters that occur here (ASCII): map each
letter to its ASCII upper-case form. -/
def pyUpper (l : List Char) : List Char := l.map Char.toUpper

/-- Python `str.lower()` on ASCII characters. -/
def pyLower (l : List Char) : List Char := l.map Char.toLower

/-- Value of `c` as a digit in `base` (10 or 16 here), as CPython's `int`
accepts: ASCII digits, and for base 16 also `a`-`f` and `A`-`F`. -/
def digitVal (base : Nat) (c : Char) : Option Nat :=
  if '0' ≤ c ∧ c ≤ '9' then
    let d := c.toNat - '0'.toNat
    if d < base then some d else none
  else if base = 16 ∧ 'a' ≤ c ∧ c ≤ 'f' then some (c.toNat - 'a'.toNat + 10)
  else if base = 16 ∧ 'A' ≤ c ∧ c ≤ 'F' then some (c.toNat - 'A'.toNat + 10)
  else none

/-- Continuation of a digit run, CPython `int` style: a single `_` is allowed
only between two digits (never doubled or trailing). `acc` is the value of
the digits already consumed. -/
def digitsRest (base : Nat) : List Char → Nat → Option Nat
  | [], acc => some acc
  | '_' :: c :: cs, acc =>
    match digitVal base c with
    | some d => digitsRest base cs (acc * base + d)
    | none => none
  | ['_'], _ => none
  | c :: cs, acc =>
    match digitVal base c with
    | some d => digitsRest base cs (acc * base + d)
    | none => none

/-- A nonempty digit run with CPython underscore rules: the first character
must be a digit (so no leading `_`). -/
def digitsRun (base : Nat) (s : List Char) : Option Nat :=
  match s with
  | [] => none
  | c :: cs =>
    match digitVal base c with
    | some d => digitsRest base cs d
    | none => none

/-- Model of CPython `int(s, 10)`: optional surrounding whitespace, an
optional `+`/`-` sign, then ASCII digits with single underscores between
digits; anything else is a `ValueError` (`none`). CPython additionally
accepts non-ASCII decimal digits, which no claim exercises and which are not
modelled. -/
def pyInt10 (s : List Char) : Option Int :=
  match pyStrip s with
  | '+' :: rest => (digitsRun 10 rest).map (fun n => (n : Int))
  | '-' :: rest => (digitsRun 10 rest).map (fun n => -(n : Int))
  | rest => (digitsRun 10 rest).map (fun n => (n : Int))

/-- Body of a base-16 literal: an optional `0x`/`0X` marker, after which one
single `_` may directly follow, then hex digits with underscore rules. -/
def hexBody : List Char → Option Nat
  | '0' :: 'x' :: '_' :: rest => digitsRun 16 rest
  | '0' :: 'x' :: rest => digitsRun 16 rest
  | '0' :: 'X' :: '_' :: rest => digitsRun 16 rest
  | '0' :: 'X' :: rest => digitsRun 16 rest
  | rest => digitsRun 16 rest

/-- Model of CPython `int(s, 16)`: optional surrounding whitespace, optional
sign, then a base-16 literal body (`0x` marker optional). -/
def pyInt16 (s : List Char) : Option Int :=
  match pyStrip s with
  | '+' :: rest => (hexBody rest).map (fun n => (n : Int))
  | '-' :: rest => (hexBody rest).map (fun n => -(n : Int))
  | rest => (hexBody rest).map (fun n => (n : Int))

/-- `UVMAssembler._parse_operand`: strip the token, drop one trailing comma,
then parse base-16 if the lowercased token starts with `0x`, else base-10.
`none` models the `ValueError` that `_parse_instruction` catches. -/
def parse_operand (s : List Char) : Option Int :=
  let s1 := pyStrip s
  let s2 := if s1.getLast? = some ',' then s1.dropLast else s1
  if (pyLower s2).take 2 = ['0', 'x'] then pyInt16 s2 else pyInt10 s2

/-- The distinct `AssemblyException` causes raised by `_parse_instruction`. -/
inductive AsmError where
  | missingOperand (mnemonic : List Char)
  | invalidOperandFormat (token : List Char)
  | operandOutOfRange (value : Int)
  | unknownMnemonic (mnemonic : List Char)
deriving DecidableEq

instance {α β : Type} [DecidableEq α] [DecidableEq β] : DecidableEq (Except α β) := fun x y =>
  match x, y with
  | .error a, .error b =>
    if h : a = b then .isTrue (congrArg Except.error h)
    else .isFalse (fun hh => h (Except.error.inj hh))
  | .ok a, .ok b =>
    if h : a = b then .isTrue (congrArg Except.ok h)
    else .isFalse (fun hh => h (Except.ok.inj hh))
  | .error _, .ok _ => .isFalse (fun hh => Except.noConfusion hh)
  | .ok _, .error _ => .isFalse (fun hh => Except.noConfusion hh)

/-- `UVMAssembler.MNEMONICS`: the fixed mnemonic-to-opcode table. -/
def MNEMONICS : List (List Char × Nat) :=
  [("LOAD".toList, OPCODE_LOAD), ("READ".toList, OPCODE_READ),
   ("WRITE".toList, OPCODE_WRITE), ("XOR".toList, OPCODE_XOR)]

/-- `UVMAssembler._parse_instruction`: check token count, parse the operand,
check its range, check the mnemonic — in that order — and on success build
the instruction from the table's opcode and the parsed operand. -/
def parse_instruction (mnemonic : List Char) (tokens : List (List Char)) :
    Except AsmError Instruction :=
  match tokens with
  | [] => .error (.missingOperand mnemonic)
  | [_] => .error (.missingOperand mnemonic)
  | _ :: t1 :: _ =>
    match parse_operand t1 with
    | none => .error (.invalidOperandFormat t1)
    | some v =>
      if ¬ (0 ≤ v ∧ v ≤ 0x7FFFFF) then .error (.operandOutOfRange v)
      else
        match MNEMONICS.lookup mnemonic with
        | none => .error (.unknownMnemonic mnemonic)
        | some opcode => .ok ⟨opcode, v.toNat⟩

/-- One iteration of `_parse_assembly`'s loop body: `none` when the stripped
line is empty or yields no tokens (the line is skipped), otherwise the result
of `_parse_instruction` with the uppercased first token as mnemonic. -/
def parse_line (l : List Char) : Option (Except AsmError Instruction) :=
  let s := pyStrip l
  if s.isEmpty then none
  else
    match splitPy s with
    | [] => none
    | t0 :: ts => some (parse_instruction (pyUpper t0) (t0 :: ts))

/-- An `AssemblyException` as re-raised by `_parse_assembly`, carrying the
1-indexed source line number. -/
structure LineError where
  lineNum : Nat
  cause : AsmError
deriving DecidableEq

/-- `_parse_assembly`'s loop starting at line number `n`: skip blank lines,
abort with a line-numbered error at the first failing line, otherwise collect
the parsed instructions in source order. -/
def parseFrom (n : Nat) : List (List Char) → Except LineError (List Instruction)
  | [] => .ok []
  | l :: rest =>
    match parse_line l with
    | none => parseFrom (n + 1) rest
    | some (.error e) => .error ⟨n, e⟩
    | some (.ok i) => (parseFrom (n + 1) rest).map (i :: ·)

/-- `UVMAssembler._parse_assembly`: lines are numbered starting from 1. -/
def parse_assembly (lines : List (List Char)) : Except LineError (List Instruction) :=
  parseFrom 1 lines

/-- `UVMAssembler._generate_machine_code` (and `_write_binary_file`, which
re-encodes the same list): the concatenation of each instruction's 4-byte
encoding, in order, with no header, padding or trailer. -/
def generate_machine_code (instrs : List Instruction) : List Nat :=
  (instrs.map Instruction.encode).flatten

/-- The per-instance state `UVMAssembler.__init__` creates: the diagnostic
flag and the `instructions` list, empty on every fresh instance. -/
structure AsmState where
  test_mode : Bool
  instructions : List Instruction
deriving DecidableEq

/-- A freshly constructed `UVMAssembler(test_mode)`. -/
def initState (tm : Bool) : AsmState := ⟨tm, []⟩

/-- `UVMAssembler.assemble` as a state transformer: parse the source, append
the parsed instructions to `self.instructions`, and generate the binary from
that list. On a parse error the run aborts and no binary is produced. -/
def assembleRun (st : AsmState) (lines : List (List Char)) :
    Except LineError (AsmState × List Nat) :=
  match parse_assembly lines with
  | .error e => .error e
  | .ok is =>
    let st2 : AsmState := ⟨st.test_mode, st.instructions ++ is⟩
    .ok (st2, generate_machine_code st2.instructions)

/-- The binary output of one `assemble` run on a fresh assembler. -/
def assembleBin (lines : List (List Char)) : Except LineError (List Nat) :=
  (assembleRun (initState false) lines).map Prod.snd

/-- A source line containing a U+00A0 no-break space between mnemonic and
operand. -/
def nbspLine : List Char := "LOAD".toList ++ ['\u00A0'] ++ "98".toList

end UVM

namespace UVM

/-- Bytes extracted by shifting and masking reassemble, via `|` and `<<`, to
the original value when it is below `2 ^ 24`. -/
theorem byte_recompose {x : Nat} (hx : x < 2 ^ 24) :
    ((x >>> 0) &&& 0xFF) ||| (((x >>> 8) &&& 0xFF) <<< 8) |||
      (((x >>> 16) &&& 0xFF) <<< 16) = x := by
  apply Nat.eq_of_testBit_eq
  intro i
  have h255 : (0xFF : Nat) = 2 ^ 8 - 1 := by norm_num
  rw [h255]
  simp only [Nat.testBit_or, Nat.testBit_and, Nat.testBit_shiftLeft, Nat.testBit_shiftRight,
    Nat.shiftRight_zero, Nat.testBit_two_pow_sub_one]
  rcases Nat.lt_or_ge i 8 with h1 | h1
  · have n2 : ¬ (8 ≤ i) := by omega
    have n3 : ¬ (16 ≤ i) := by omega
    simp [h1, n2, n3]
  rcases Nat.lt_or_ge i 16 with h2 | h2
  · have e : 8 + (i - 8) = i := by omega
    have d1 : ¬ (i < 8) := by omega
    have d2 : i - 8 < 8 := by omega
    have d3 : ¬ (16 ≤ i) := by omega
    simp [e, d1, d2, d3, h1]
  rcases Nat.lt_or_ge i 24 with h3 | h3
  · have e : 16 + (i - 16) = i := by omega
    have d1 : ¬ (i < 8) := by omega
    have d2 : ¬ (i - 8 < 8) := by omega
    have d3 : i - 16 < 8 := by omega
    simp [e, d1, d2, d3, h1, h2]
  · have d1 : ¬ (i < 8) := by omega
    have d2 : ¬ (i - 8 < 8) := by omega
    have d3 : ¬ (i - 16 < 8) := by omega
    have hxi : x < 2 ^ i :=
      Nat.lt_of_lt_of_le hx (Nat.pow_le_pow_right (by norm_num) (by omega))
    simp [d1, d2, d3, Nat.testBit_lt_two_pow hxi]

/-- Masking with `0xFF` is reduction modulo 256. -/
theorem and_255_eq_mod (x : Nat) : x &&& 0xFF = x % 256 := by
  have h := Nat.and_pow_two_sub_one_eq_mod x 8
  norm_num at h
  exact h

/-- C1: for every instruction whose opcode is one of the four table constants
and whose operand is at most `0x7FFFFF`, `encode` returns exactly 4 bytes:
byte 0 is the opcode itself, bytes 1-3 are the operand's bits 0-7, 8-15 and
16-23 in little-endian order, and those three bytes reassemble to the
operand. -/
theorem C1_encode_layout (i : Instruction)
    (hop : i.opcode = OPCODE_LOAD ∨ i.opcode = OPCODE_READ ∨
           i.opcode = OPCODE_WRITE ∨ i.opcode = OPCODE_XOR)
    (hrange : i.operand ≤ 0x7FFFFF) :
    i.encode.length = 4 ∧
    i.encode = [i.opcode, i.operand % 256, i.operand / 256 % 256,
                i.operand / 65536 % 256] ∧
    i.operand = i.operand % 256 + 256 * (i.operand / 256 % 256) +
                65536 * (i.operand / 65536 % 256) := by
  have hop2 : i.opcode &&& 0xFF = i.opcode := by
    rcases hop with h | h | h | h <;> rw [h] <;> rfl
  refine ⟨rfl, ?_, by omega⟩
  simp only [Instruction.encode, Nat.shiftRight_zero, Nat.shiftRight_eq_div_pow,
    and_255_eq_mod, hop2]
  norm_num

/-- Witness for C1 at the spec's reference vector `LOAD 98`. -/
theorem C1_encode_layout_witness :
    (Instruction.mk 102 98).encode = [0x66, 0x62, 0x00, 0x00] := by
  have h := (C1_encode_layout ⟨102, 98⟩ (Or.inl rfl) (by decide)).2.1
  rw [h]
  decide

/-- C2: decoding (as the test harness does) the 4-byte encoding of any valid
instruction yields that instruction back. -/
theorem C2_decode_encode (i : Instruction)
    (hop : i.opcode = OPCODE_LOAD ∨ i.opcode = OPCODE_READ ∨
           i.opcode = OPCODE_WRITE ∨ i.opcode = OPCODE_XOR)
    (hrange : i.operand ≤ 0x7FFFFF) :
    decode i.encode = i := by
  have hx : i.operand < 2 ^ 24 := by norm_num at hrange ⊢; omega
  have hb := byte_recompose (x := i.operand) hx
  have hop2 : i.opcode &&& 0xFF = i.opcode := by
    rcases hop with h | h | h | h <;> rw [h] <;> rfl
  simp only [decode, Instruction.encode, List.getD_cons_zero, List.getD_cons_succ]
  rw [hop2, hb]

/-- Witness for C2 at the upper range boundary. -/
theorem C2_decode_encode_witness :
    decode (Instruction.mk 155 8388607).encode = Instruction.mk 155 8388607 :=
  C2_decode_encode ⟨155, 8388607⟩ (Or.inr (Or.inl rfl)) (by decide)

end UVM

namespace UVM

/-- C4: `_parse_instruction` performs its checks in a fixed order — token
count, operand format, operand range, and only then mnemonic validity — and
consequently the lines `FOO 5`, `LOAD`, `LOAD abc` and `FOO -1` fail with
`UnknownMnemonic`, `MissingOperand`, `InvalidOperandFormat` and
`OperandOutOfRange` respectively. -/
theorem C4_check_order (m t : List Char) (rest : List (List Char)) :
    parse_instruction m [m] = .error (.missingOperand m) ∧
    (parse_operand t = none →
      parse_instruction m (m :: t :: rest) = .error (.invalidOperandFormat t)) ∧
    (∀ v : Int, parse_operand t = some v → ¬ (0 ≤ v ∧ v ≤ 0x7FFFFF) →
      parse_instruction m (m :: t :: rest) = .error (.operandOutOfRange v)) ∧
    (∀ v : Int, parse_operand t = some v → 0 ≤ v → v ≤ 0x7FFFFF →
      MNEMONICS.lookup m = none →
      parse_instruction m (m :: t :: rest) = .error (.unknownMnemonic m)) ∧
    parse_line ("FOO 5".toList) = some (.error (.unknownMnemonic ("FOO".toList))) ∧
    parse_line ("LOAD".toList) = some (.error (.missingOperand ("LOAD".toList))) ∧
    parse_line ("LOAD abc".toList) = some (.error (.invalidOperandFormat ("abc".toList))) ∧
    parse_line ("FOO -1".toList) = some (.error (.operandOutOfRange (-1))) := by
  refine ⟨rfl, ?_, ?_, ?_, by decide, by decide, by decide, by decide⟩
  · intro h
    simp [parse_instruction, h]
  · intro v hv hout
    simp [parse_instruction, hv, hout]
  · intro v hv h0 h1 hm
    simp [parse_instruction, hv, hm, h0, h1]

/-- Witness for C4: the line `FOO -1` is rejected for its range, not its
unknown mnemonic. -/
theorem C4_check_order_witness :
    parse_instruction ("FOO".toList) ("FOO".toList :: "-1".toList :: []) =
      .error (.operandOutOfRange (-1)) :=
  (C4_check_order ("FOO".toList) ("-1".toList) []).2.2.1 (-1) (by decide) (by decide)

/-- C5: an operand parsing to exactly 8388607 is accepted, and any operand
parsing to a value below 0 or above 8388607 — such as 8388608, 99999999 or
-1 — is rejected with `OperandOutOfRange`. -/
theorem C5_range_boundary (m t : List Char) (rest : List (List Char)) :
    (∀ v : Int, parse_operand t = some v → v < 0 ∨ 8388607 < v →
      parse_instruction m (m :: t :: rest) = .error (.operandOutOfRange v)) ∧
    (∀ opcode : Nat, MNEMONICS.lookup m = some opcode →
      parse_operand t = some 8388607 →
      parse_instruction m (m :: t :: rest) = .ok ⟨opcode, 8388607⟩) ∧
    parse_line ("LOAD 8388607".toList) = some (.ok ⟨OPCODE_LOAD, 8388607⟩) ∧
    parse_line ("LOAD 8388608".toList) = some (.error (.operandOutOfRange 8388608)) ∧
    parse_line ("LOAD 99999999".toList) = some (.error (.operandOutOfRange 99999999)) ∧
    parse_line ("LOAD -1".toList) = some (.error (.operandOutOfRange (-1))) := by
  refine ⟨?_, ?_, by decide, by decide, by decide, by decide⟩
  · intro v hv hout
    have hc : ¬ (0 ≤ v ∧ v ≤ 0x7FFFFF) := by omega
    simp [parse_instruction, hv, hc]
  · intro opcode hm hv
    have hc : (0 : Int) ≤ 8388607 ∧ (8388607 : Int) ≤ 0x7FFFFF := by decide
    simp [parse_instruction, hv, hm, hc]

/-- Witness for C5: `LOAD 8388607` assembles, `LOAD 8388608` does not. -/
theorem C5_range_boundary_witness :
    parse_instruction ("LOAD".toList) ("LOAD".toList :: "8388607".toList :: []) =
      .ok ⟨OPCODE_LOAD, 8388607⟩ :=
  (C5_range_boundary ("LOAD".toList) ("8388607".toList) []).2.1
    OPCODE_LOAD (by decide) (by decide)

/-- C9: tokens after the first two never influence `_parse_instruction` (it
only inspects the token count and `tokens[1]`), so a line with trailing extra
tokens parses exactly like the line with only its first two tokens. -/
theorem C9_extra_tokens_ignored (m t0 t1 : List Char) (rest : List (List Char)) :
    parse_instruction m (t0 :: t1 :: rest) = parse_instruction m [t0, t1] ∧
    parse_line ("LOAD 5 junk".toList) = parse_line ("LOAD 5".toList) :=
  ⟨rfl, by decide⟩

/-- C10: operand tokens that are neither plain decimal nor plain `0x`-hex
numerals can still parse, via CPython's integer-literal extensions: a digit
underscore (`1_0` parses as 10) and an explicit leading plus (`+5` parses as
5) are both accepted. -/
theorem C10_int_extensions :
    parse_operand ("1_0".toList) = some 10 ∧
    parse_operand ("+5".toList) = some 5 ∧
    parse_line ("LOAD 1_0".toList) = some (.ok ⟨OPCODE_LOAD, 10⟩) ∧
    parse_line ("LOAD +5".toList) = some (.ok ⟨OPCODE_LOAD, 5⟩) := by
  decide

end UVM

namespace UVM

/-- Every token `wordsByAux` emits is nonempty and free of separator
characters, provided the running accumulator is. -/
theorem wordsByAux_tokens (p : Char → Bool) (l : List Char) :
    ∀ acc : List Char, (∀ c ∈ acc, p c = false) →
      ∀ t ∈ wordsByAux p l acc, t ≠ [] ∧ ∀ c ∈ t, p c = false := by
  induction l with
  | nil =>
    intro acc hacc t ht
    simp only [wordsByAux] at ht
    split at ht
    · simp at ht
    · rename_i hne
      simp only [List.mem_singleton] at ht
      subst ht
      refine ⟨?_, ?_⟩
      · simp only [ne_eq, List.reverse_eq_nil_iff]
        simpa [List.isEmpty_iff] using hne
      · intro c hc
        exact hacc c (List.mem_reverse.mp hc)
  | cons c cs ih =>
    intro acc hacc t ht
    simp only [wordsByAux] at ht
    split at ht
    · split at ht
      · exact ih [] (by simp) t ht
      · rename_i hne
        rcases List.mem_cons.mp ht with h | h
        · subst h
          refine ⟨?_, ?_⟩
          · simp only [ne_eq, List.reverse_eq_nil_iff]
            simpa [List.isEmpty_iff] using hne
          · intro d hd
            exact hacc d (List.mem_reverse.mp hd)
        · exact ih [] (by simp) t h
    · rename_i hpc
      refine ih (c :: acc) ?_ t ht
      intro d hd
      rcases List.mem_cons.mp hd with h | h
      · subst h
        simpa using hpc
      · exact hacc d h

/-- Concatenating the emitted tokens recovers the pending accumulator
followed by every non-separator character of the input, in order. -/
theorem wordsByAux_flatten (p : Char → Bool) (l : List Char) :
    ∀ acc : List Char,
      (wordsByAux p l acc).flatten = acc.reverse ++ l.filter (fun c => !p c) := by
  induction l with
  | nil =>
    intro acc
    by_cases h : acc.isEmpty
    · simp [wordsByAux, h, List.isEmpty_iff.mp h]
    · simp [wordsByAux, h]
  | cons c cs ih =>
    intro acc
    simp only [wordsByAux]
    by_cases hpc : p c
    · rw [if_pos hpc]
      by_cases h : acc.isEmpty
      · rw [if_pos h, ih []]
        simp [List.isEmpty_iff.mp h, List.filter_cons, hpc]
      · rw [if_neg h]
        simp only [List.flatten_cons, ih []]
        simp [List.filter_cons, hpc]
    · rw [if_neg hpc, ih (c :: acc)]
      simp [List.filter_cons, hpc]

/-- The tokens of `str.split()` concatenate to the non-whitespace characters
of the line. -/
theorem splitPy_flatten (l : List Char) :
    (splitPy l).flatten = l.filter (fun c => !pySpace c) := by
  simpa using wordsByAux_flatten pySpace l []

/-- The head surviving `dropWhile` falsifies the predicate. -/
theorem dropWhile_cons_head (p : Char → Bool) :
    ∀ (l : List Char) (c : Char) (cs : List Char),
      l.dropWhile p = c :: cs → p c = false := by
  intro l
  induction l with
  | nil => intro c cs h; simp at h
  | cons a as ih =>
    intro c cs h
    by_cases hpa : p a
    · rw [List.dropWhile_cons, if_pos hpa] at h
      exact ih c cs h
    · rw [List.dropWhile_cons, if_neg hpa] at h
      cases h
      simpa using hpa

/-- `dropWhile` never crosses a final element that falsifies the predicate. -/
theorem dropWhile_append_keep {p : Char → Bool} {c : Char} (hc : p c = false) :
    ∀ ys : List Char, (ys ++ [c]).dropWhile p = ys.dropWhile p ++ [c] := by
  intro ys
  induction ys with
  | nil => simp [List.dropWhile_cons, hc]
  | cons y ys ih =>
    by_cases hpy : p y
    · simpa [List.dropWhile_cons, hpy] using ih
    · simp [List.dropWhile_cons, hpy]

/-- A nonempty stripped line starts with a non-whitespace character. -/
theorem pyStrip_head (l : List Char) :
    ∀ c cs, pyStrip l = c :: cs → pySpace c = false := by
  intro c cs h
  rw [pyStrip] at h
  cases hd : l.dropWhile pySpace with
  | nil => rw [hd] at h; simp at h
  | cons c0 cs0 =>
    have hc0 : pySpace c0 = false := dropWhile_cons_head pySpace l c0 cs0 hd
    rw [hd] at h
    rw [List.reverse_cons, dropWhile_append_keep hc0, List.reverse_append] at h
    simp at h
    exact h.1 ▸ hc0

/-- A line that is nonempty after stripping yields at least one token. -/
theorem pyStrip_split_ne (l : List Char) (h : pyStrip l ≠ []) :
    splitPy (pyStrip l) ≠ [] := by
  intro hsplit
  have hj := splitPy_flatten (pyStrip l)
  rw [hsplit] at hj
  cases hs : pyStrip l with
  | nil => exact h hs
  | cons c cs =>
    have hc := pyStrip_head l c cs hs
    rw [hs] at hj
    simp [List.filter_cons, hc] at hj

/-- `parse_line` skips a line exactly when the stripped line is empty. -/
theorem parse_line_eq_none_iff (l : List Char) :
    parse_line l = none ↔ pyStrip l = [] := by
  constructor
  · intro h
    by_contra hne
    cases hsp : splitPy (pyStrip l) with
    | nil => exact pyStrip_split_ne l hne hsp
    | cons t ts =>
      rw [parse_line] at h
      simp only [List.isEmpty_eq_true] at h
      rw [if_neg hne, hsp] at h
      cases h
  · intro h
    simp [parse_line, h]

end UVM

namespace UVM

/-- C8 counterexample: in the code's tokenization a U+00A0 no-break space
does act as a separator — `LOAD<nbsp>98` splits into two tokens (and even
assembles), while splitting only on ASCII whitespace would leave it one
token. -/
theorem C8_ascii_only_counterexample :
    splitPy nbspLine = ["LOAD".toList, "98".toList] ∧
    splitAscii nbspLine = [nbspLine] ∧
    splitPy nbspLine ≠ splitAscii nbspLine ∧
    parse_line nbspLine = some (.ok ⟨OPCODE_LOAD, 98⟩) := by
  decide

/-- C8 (amended): tokens are the maximal runs between Python whitespace
characters (`str.isspace`, a strict superset of ASCII whitespace): every
token is nonempty and separator-free, the tokens concatenate to exactly the
non-whitespace characters of the line, and every ASCII whitespace character
is a separator. -/
theorem C8_tokenization_unicode (l : List Char) :
    (∀ t ∈ splitPy l, t ≠ [] ∧ ∀ c ∈ t, pySpace c = false) ∧
    (splitPy l).flatten = l.filter (fun c => !pySpace c) ∧
    (∀ c : Char, asciiSpace c = true → pySpace c = true) := by
  refine ⟨wordsByAux_tokens pySpace l [] (by simp), splitPy_flatten l, ?_⟩
  intro c hc
  simp only [asciiSpace, decide_eq_true_eq] at hc
  simp only [pySpace, decide_eq_true_eq]
  omega

/-- Witness for C8 (amended) on the line `LOAD 98`. -/
theorem C8_tokenization_unicode_witness :
    ("LOAD".toList ≠ ([] : List Char)) ∧ pySpace ' ' = true := by
  have h := C8_tokenization_unicode ("LOAD 98".toList)
  exact ⟨(h.1 ("LOAD".toList) (by decide)).1, h.2.2 ' ' (by decide)⟩

end UVM

namespace UVM

/-- Each instruction contributes exactly 4 bytes to the machine code. -/
theorem generate_machine_code_length (instrs : List Instruction) :
    (generate_machine_code instrs).length = 4 * instrs.length := by
  induction instrs with
  | nil => rfl
  | cons i is ih =>
    simp only [generate_machine_code, List.map_cons, List.flatten_cons,
      List.length_append, List.length_cons] at ih ⊢
    rw [ih]
    simp [Instruction.encode]
    ring

/-- A successful parse yields one instruction per line that is non-blank
after stripping, independently of the starting line number. -/
theorem parseFrom_ok_count (lines : List (List Char)) :
    ∀ (n : Nat) (instrs : List Instruction), parseFrom n lines = .ok instrs →
      instrs.length = (lines.filter (fun l => !(pyStrip l).isEmpty)).length := by
  induction lines with
  | nil =>
    intro n instrs h
    simp only [parseFrom] at h
    injection h with h2
    subst h2
    rfl
  | cons l rest ih =>
    intro n instrs h
    simp only [parseFrom] at h
    cases hl : parse_line l with
    | none =>
      rw [hl] at h
      have hcount := ih (n + 1) instrs h
      have hstrip : pyStrip l = [] := (parse_line_eq_none_iff l).mp hl
      simp [List.filter_cons, hstrip, hcount]
    | some r =>
      cases r with
      | error e =>
        rw [hl] at h
        cases h
      | ok i =>
        rw [hl] at h
        cases hrest : parseFrom (n + 1) rest with
        | error e =>
          rw [hrest] at h
          cases h
        | ok is2 =>
          rw [hrest] at h
          simp only [Except.map] at h
          injection h with h2
          subst h2
          have hcount := ih (n + 1) is2 hrest
          have hne : pyStrip l ≠ [] := by
            intro hs
            rw [(parse_line_eq_none_iff l).mpr hs] at hl
            cases hl
          simp [List.filter_cons, hne, hcount]

/-- C3: when assembly succeeds, the binary is exactly the in-order
concatenation of the 4-byte encodings of the parsed instructions — one
instruction per line that is non-blank after stripping — so its size is
exactly `4 * N` bytes with no header, padding or trailer. -/
theorem C3_output_size (lines : List (List Char)) (bytes : List Nat)
    (h : assembleBin lines = .ok bytes) :
    ∃ instrs : List Instruction,
      parse_assembly lines = .ok instrs ∧
      bytes = (instrs.map Instruction.encode).flatten ∧
      instrs.length = (lines.filter (fun l => !(pyStrip l).isEmpty)).length ∧
      bytes.length = 4 * (lines.filter (fun l => !(pyStrip l).isEmpty)).length := by
  cases hp : parse_assembly lines with
  | error e =>
    simp [assembleBin, assembleRun, hp, Except.map] at h
  | ok instrs =>
    have hbytes : bytes = generate_machine_code instrs := by
      simp [assembleBin, assembleRun, hp, initState, Except.map] at h
      first
      | exact h
      | exact h.symm
    have hcount := parseFrom_ok_count lines 1 instrs hp
    refine ⟨instrs, rfl, ?_, hcount, ?_⟩
    · rw [hbytes]; rfl
    · rw [hbytes, generate_machine_code_length, hcount]

/-- Witness for C3 on a 3-line source with one blank line. -/
theorem C3_output_size_witness :
    ∃ instrs : List Instruction,
      parse_assembly ["LOAD 98".toList, "".toList, "READ 531".toList] = .ok instrs ∧
      ([102, 98, 0, 0, 155, 19, 2, 0] : List Nat) = (instrs.map Instruction.encode).flatten ∧
      instrs.length = ((["LOAD 98".toList, "".toList, "READ 531".toList]).filter
        (fun l => !(pyStrip l).isEmpty)).length ∧
      ([102, 98, 0, 0, 155, 19, 2, 0] : List Nat).length =
        4 * ((["LOAD 98".toList, "".toList, "READ 531".toList]).filter
          (fun l => !(pyStrip l).isEmpty)).length :=
  C3_output_size ["LOAD 98".toList, "".toList, "READ 531".toList]
    [102, 98, 0, 0, 155, 19, 2, 0] (by decide)

end UVM

namespace UVM

/-- Full characterization of a failing parse from line number `k`: the error
carries the number of the first failing line, every earlier line is either
blank or parses, and the outcome is unchanged by whatever follows the
failing line. -/
theorem parseFrom_error_spec (lines : List (List Char)) :
    ∀ (k n : Nat) (e : AsmError), parseFrom k lines = .error ⟨n, e⟩ →
      k ≤ n ∧ n - k < lines.length ∧
      parse_line (lines.getD (n - k) []) = some (.error e) ∧
      (∀ m : Nat, m < n - k → ∀ e2 : AsmError,
        parse_line (lines.getD m []) ≠ some (.error e2)) ∧
      (∀ tail : List (List Char),
        parseFrom k (lines.take (n - k + 1) ++ tail) = .error ⟨n, e⟩) := by
  induction lines with
  | nil =>
    intro k n e h
    simp [parseFrom] at h
  | cons l rest ih =>
    intro k n e h
    simp only [parseFrom] at h
    cases hl : parse_line l with
    | none =>
      rw [hl] at h
      obtain ⟨h1, h2, h3, h4, h5⟩ := ih (k + 1) n e h
      have hnk : n - k = (n - (k + 1)) + 1 := by omega
      refine ⟨by omega, ?_, ?_, ?_, ?_⟩
      · simp only [List.length_cons]
        omega
      · rw [hnk, List.getD_cons_succ]
        exact h3
      · intro m hm e2
        cases m with
        | zero =>
          simp [List.getD_cons_zero, hl]
        | succ m2 =>
          rw [List.getD_cons_succ]
          exact h4 m2 (by omega) e2
      · intro tail
        rw [hnk, List.take_succ_cons, List.cons_append]
        simp only [parseFrom, hl]
        exact h5 tail
    | some r =>
      cases r with
      | error e2 =>
        rw [hl] at h
        injection h with hinj
        injection hinj with hk he
        subst hk
        subst he
        refine ⟨Nat.le_refl k, by simp, ?_, ?_, ?_⟩
        · simpa [Nat.sub_self] using hl
        · intro m hm e3
          exact absurd hm (by omega)
        · intro tail
          simp [Nat.sub_self, parseFrom, hl]
      | ok i =>
        rw [hl] at h
        cases hrest : parseFrom (k + 1) rest with
        | ok is2 =>
          rw [hrest] at h
          cases h
        | error le =>
          rw [hrest] at h
          simp only [Except.map] at h
          injection h with hinj
          subst hinj
          obtain ⟨h1, h2, h3, h4, h5⟩ := ih (k + 1) n e hrest
          have hnk : n - k = (n - (k + 1)) + 1 := by omega
          refine ⟨by omega, ?_, ?_, ?_, ?_⟩
          · simp only [List.length_cons]
            omega
          · rw [hnk, List.getD_cons_succ]
            exact h3
          · intro m hm e3
            cases m with
            | zero =>
              simp [List.getD_cons_zero, hl]
            | succ m2 =>
              rw [List.getD_cons_succ]
              exact h4 m2 (by omega) e3
          · intro tail
            rw [hnk, List.take_succ_cons, List.cons_append]
            simp only [parseFrom, hl]
            rw [h5 tail]
            rfl

/-- C6: when assembly fails, the reported error carries the 1-indexed number
of the first invalid line, every earlier line is blank or valid, the outcome
does not depend on anything after that line (later lines are never parsed),
and no binary is produced. -/
theorem C6_first_error_aborts (lines : List (List Char)) (n : Nat) (e : AsmError)
    (h : assembleBin lines = .error ⟨n, e⟩) :
    1 ≤ n ∧ n ≤ lines.length ∧
    parse_line (lines.getD (n - 1) []) = some (.error e) ∧
    (∀ m : Nat, m < n - 1 → ∀ e2 : AsmError,
      parse_line (lines.getD m []) ≠ some (.error e2)) ∧
    (∀ tail : List (List Char), assembleBin (lines.take n ++ tail) = .error ⟨n, e⟩) := by
  have hp : parse_assembly lines = .error ⟨n, e⟩ := by
    cases hp2 : parse_assembly lines with
    | error le =>
      simp [assembleBin, assembleRun, hp2, Except.map] at h
      rw [h]
    | ok is =>
      simp [assembleBin, assembleRun, hp2, Except.map] at h
  obtain ⟨h1, h2, h3, h4, h5⟩ := parseFrom_error_spec lines 1 n e hp
  refine ⟨h1, by omega, h3, h4, ?_⟩
  intro tail
  have ht := h5 tail
  have he : n - 1 + 1 = n := by omega
  rw [he] at ht
  simp [assembleBin, assembleRun, parse_assembly, ht, Except.map]

/-- Witness for C6: in a 4-line source whose line 3 is `FOO 5`, the failure
is attributed to line 3. -/
theorem C6_first_error_aborts_witness :
    parse_line ((["LOAD 98".toList, "".toList, "FOO 5".toList,
        "LOAD 1".toList]).getD (3 - 1) []) =
      some (.error (.unknownMnemonic ("FOO".toList))) :=
  (C6_first_error_aborts ["LOAD 98".toList, "".toList, "FOO 5".toList, "LOAD 1".toList]
    3 (.unknownMnemonic ("FOO".toList)) (by decide)).2.2.1

/-- C7: the binary output of `assemble` is a function of the source text
alone — any two runs starting from freshly initialized assembler state
(empty `instructions` list, any diagnostic flag) give identical results. -/
theorem C7_deterministic (lines : List (List Char)) (st1 st2 : AsmState)
    (h1 : st1.instructions = []) (h2 : st2.instructions = []) :
    (assembleRun st1 lines).map Prod.snd = (assembleRun st2 lines).map Prod.snd := by
  cases hp : parse_assembly lines with
  | error e =>
    simp [assembleRun, hp]
  | ok is =>
    simp [assembleRun, hp, h1, h2, Except.map]

/-- Witness for C7: two fresh runs (one with the diagnostic flag, one
without) on `LOAD 98`. -/
theorem C7_deterministic_witness :
    (assembleRun (initState true) ["LOAD 98".toList]).map Prod.snd =
      (assembleRun (initState false) ["LOAD 98".toList]).map Prod.snd :=
  C7_deterministic ["LOAD 98".toList] (initState true) (initState false) rfl rfl

end UVM
